import Mathlib

/-!
Shallow embedding of `src/rubyexec.c` (konsolebox/rubyexec).

The program is a process-launch shim: it parses its first argument as a
comma-separated preference list of Ruby implementation names (validated
against a fixed compiled-in catalog, with a `--autopick` marker token),
resolves the symlink `/proc/self/exe` and the sibling symlink `ruby`,
selects an implementation binary, rebuilds the argument vector and execs.

Modelling conventions:
* strings are Lean `String`s (lists of characters); the terminating NUL of
  a C string is the end of the list, and a NULL-terminated `char *` array
  is a `List String` (the NULL slot is the end of the list);
* the filesystem is an oracle pair: `readlinkFn : String → Option String`
  (the result of `readlink(2)`, `none` meaning failure) and
  `accessFn : String → Bool` (the result of `access(path, F_OK) == 0`);
* `exit`/`die`/`execv` are modelled by the `Outcome` type: the program
  either returns a usage error (status 2), dies fatally (status 1, one
  message on stderr), or reaches `execv` with a path and argument vector.
-/

namespace Rubyexec

/-- Constant `MAX_PATH_SIZE` of rubyexec.c (size of the `readlink` buffer). -/
def MAX_PATH_SIZE : Nat := 1024

/-- The fixed catalog `IMPLEMENTATIONS` of rubyexec.c.  The C array has a
final `NULL` entry; here the end of the list plays that role, so the list
has the 16 proper entries. -/
def IMPLEMENTATIONS : List String :=
  ["ruby18", "ruby19", "ruby20", "ruby21", "ruby22", "ruby23", "ruby24", "ruby25", "ruby26",
   "ruby27", "ruby30", "ruby31", "ruby32", "ruby33", "jruby", "rbx"]

/-- Tokenization performed by the `strtok(argv1, ",")` loop of
`get_valid_implementations_and_options`: split on `,`, never producing
empty tokens (runs of commas and leading/trailing commas are skipped).
`cur` is the (reversed) partial token accumulated so far. -/
def tokenizeGo (cur : List Char) : List Char → List String
  | [] => if cur = [] then [] else [String.mk cur.reverse]
  | c :: rest =>
    if c = ',' then
      if cur = [] then tokenizeGo [] rest
      else String.mk cur.reverse :: tokenizeGo [] rest
    else tokenizeGo (c :: cur) rest

/-- All tokens `strtok(s, ",")` yields, in order. -/
def tokenize (s : String) : List String :=
  tokenizeGo [] s.toList

/-- One iteration of the parsing loop of
`get_valid_implementations_and_options` (lines 125–134): state is the pair
(accumulated valid list, autopick flag).  The C test
`*valid_implementations == NULL || !in(valid_implementations, str)` is kept
literally. -/
def parseStep (catalog : List String) (acc : List String × Bool) (tok : String) :
    List String × Bool :=
  if tok = "--autopick" then (acc.1, true)
  else if acc.1 = [] || !acc.1.contains tok then
    if catalog.contains tok then (acc.1 ++ [tok], acc.2) else acc
  else acc

/-- Function `get_valid_implementations_and_options` of rubyexec.c, as the
fold of `parseStep` over the tokens of `argv1`.  The C function reads the
global `IMPLEMENTATIONS`; the catalog is a parameter here so that
catalog-generic properties can be stated, and the program always passes
`IMPLEMENTATIONS`.  The fatal `No valid implementations found.` exit taken
when the result list is empty is modelled at the call site in `mainModel`,
before any other action, exactly as the C control flow has it. -/
def get_valid_implementations_and_options (catalog : List String) (argv1 : String) :
    List String × Bool :=
  (tokenize argv1).foldl (parseStep catalog) ([], false)

/-- Result of `resolve_path`: either the resolved target, or one of its two
fatal exits (`Failed to resolve %s: %s` / `Resolved path of %s is too long.`). -/
inductive ResolveResult where
  | ok (target : String)
  | errResolve
  | errTooLong
deriving DecidableEq, Repr

/-- Function `resolve_path` of rubyexec.c.  `readlink(path, buf, 1024)`
writes `min (length of target) 1024` bytes and returns that count (no NUL
added); the C code dies if the call fails or if the count fills the whole
buffer, and otherwise NUL-terminates and duplicates the buffer contents. -/
def resolve_path (readlinkFn : String → Option String) (path : String) : ResolveResult :=
  match readlinkFn path with
  | none => .errResolve
  | some target =>
    if MAX_PATH_SIZE ≤ min target.length MAX_PATH_SIZE then .errTooLong
    else .ok (String.mk (target.toList.take (min target.length MAX_PATH_SIZE)))

/-- Characters of `l` with the trailing run of slashes removed. -/
def dropTrailingSlashes (l : List Char) : List Char :=
  (l.reverse.dropWhile (fun c => c = '/')).reverse

/-- POSIX `basename(3)` (declared in `libgen.h`), return value only:
empty string gives `"."`; a string of only slashes gives `"/"`; otherwise
the final path component after stripping trailing slashes.  (POSIX
`basename` may also strip trailing slashes from its argument in place; for
any target without trailing slashes — in particular any target naming a
plain file — the argument is unchanged, and the later uses of
`resolved_ruby` in `main` read the same string, as modelled here.) -/
def basename (s : String) : String :=
  let l := s.toList
  if l = [] then "."
  else
    let t := dropTrailingSlashes l
    if t = [] then "/"
    else String.mk (t.reverse.takeWhile (fun c => c ≠ '/')).reverse

/-- POSIX `dirname(3)`: empty string gives `"."`; only slashes gives `"/"`;
otherwise remove the final component and its separating slashes, giving
`"."` when no slash remains and `"/"` when only the root remains. -/
def dirname (s : String) : String :=
  let l := s.toList
  if l = [] then "."
  else
    let t := dropTrailingSlashes l
    if t = [] then "/"
    else
      let r := dropTrailingSlashes (t.reverse.dropWhile (fun c => c ≠ '/')).reverse
      if r = [] then (if t.headD ' ' = '/' then "/" else ".")
      else String.mk r

/-- The C test `*resolved_ruby == '/'` (line 191): the first character of
the string is a slash; an empty C string has a NUL first byte, not `'/'`. -/
def firstCharIsSlash (s : String) : Bool :=
  s.toList.headD (Char.ofNat 0) == '/'

/-- Lines 190–192 of `main`: the path used when the selected implementation
is in the valid list — `resolved_ruby` itself when absolute, otherwise
re-anchored under the directory of the resolver. -/
def selectedPath (rubyexec_dir resolved_ruby : String) : String :=
  if firstCharIsSlash resolved_ruby then resolved_ruby
  else rubyexec_dir ++ "/" ++ resolved_ruby

/-- Function `autopick_implementation` of rubyexec.c: walk the valid list
in order, build `dir ++ "/" ++ name`, and return the first such path whose
`access(path, F_OK)` succeeds; `none` models the fatal
`No usable implementations found.` exit. -/
def autopick_implementation (accessFn : String → Bool) (dir : String) :
    List String → Option String
  | [] => none
  | name :: rest =>
    if accessFn (dir ++ "/" ++ name) then some (dir ++ "/" ++ name)
    else autopick_implementation accessFn dir rest

/-- Function `create_new_argv` of rubyexec.c: slot 0 is `new_argv0`, slots
`1 .. argc-2` are `argv[2 .. argc-1]`, and slot `argc-1` is the `NULL`
terminator (the end of the Lean list).  `argv` is indexed access into the
original vector. -/
def create_new_argv (argc : Nat) (argv : Nat → String) (new_argv0 : String) : List String :=
  new_argv0 :: (List.range' 2 (argc - 2)).map argv

/-- Observable result of running `main`: `usage` is the two `return 2`
paths (wrong argument count, `-h`/`--help`); `fatal msg` is `die(msg)`,
which prints `rubyexec: ` followed by `msg` to stderr and exits with
status 1; `exec path args` is reaching `execv(path, args)` (the `NULL`
terminator of `args` being the end of the list). -/
inductive Outcome where
  | usage
  | fatal (msg : String)
  | exec (path : String) (args : List String)
deriving DecidableEq, Repr

/-- Exit status of an outcome; `none` for `exec`, whose status is the
launched program's. -/
def exitCode : Outcome → Option Nat
  | .usage => some 2
  | .fatal _ => some 1
  | .exec _ _ => none

/-- Lines 188–199 of `main`: select the implementation path and reach
`execv`.  `basename resolved_ruby` is the C variable `selected_impl`. -/
def runSelector (accessFn : String → Bool) (argv : List String)
    (rubyexec_dir resolved_ruby : String)
    (valid_implementations : List String) (autopick : Bool) : Outcome :=
  if valid_implementations.contains (basename resolved_ruby) then
    .exec (selectedPath rubyexec_dir resolved_ruby)
      (create_new_argv argv.length (fun i => argv.getD i "")
        (selectedPath rubyexec_dir resolved_ruby))
  else if autopick then
    match autopick_implementation accessFn rubyexec_dir valid_implementations with
    | some path =>
      .exec path (create_new_argv argv.length (fun i => argv.getD i "") path)
    | none => .fatal "No usable implementations found.\n"
  else
    .fatal "Script does not support currently selected Ruby implementation.\n"

/-- Lines 183–199 of `main`: the path-resolution stage and everything after
it.  `dirname rubyexec` is the C variable `rubyexec_dir` and
`dirname rubyexec ++ "/ruby"` is `ruby`.  The `strerror(errno)` suffix of
the resolution failure message is not representable and is elided from the
modelled message text. -/
def runResolved (readlinkFn : String → Option String) (accessFn : String → Bool)
    (argv : List String) (valid_implementations : List String) (autopick : Bool) : Outcome :=
  match resolve_path readlinkFn "/proc/self/exe" with
  | .errResolve => .fatal ("Failed to resolve " ++ "/proc/self/exe")
  | .errTooLong => .fatal ("Resolved path of " ++ "/proc/self/exe" ++ " is too long.\n")
  | .ok rubyexec =>
    match resolve_path readlinkFn (dirname rubyexec ++ "/ruby") with
    | .errResolve => .fatal ("Failed to resolve " ++ (dirname rubyexec ++ "/ruby"))
    | .errTooLong =>
      .fatal ("Resolved path of " ++ (dirname rubyexec ++ "/ruby") ++ " is too long.\n")
    | .ok resolved_ruby =>
      runSelector accessFn argv (dirname rubyexec) resolved_ruby
        valid_implementations autopick

/-- Function `main` of rubyexec.c over the two filesystem oracles and the
original argument vector. -/
def mainModel (readlinkFn : String → Option String) (accessFn : String → Bool)
    (argv : List String) : Outcome :=
  match argv with
  | _ :: argv1 :: _ =>
    if argv1 = "-h" || argv1 = "--help" then .usage
    else if (get_valid_implementations_and_options IMPLEMENTATIONS argv1).1 = [] then
      .fatal "No valid implementations found.\n"
    else
      runResolved readlinkFn accessFn argv
        (get_valid_implementations_and_options IMPLEMENTATIONS argv1).1
        (get_valid_implementations_and_options IMPLEMENTATIONS argv1).2
  | _ => .usage

/-- One step of first-seen-order deduplication (spec wording of 4.1). -/
def dedupAppendStep (acc : List String) (tok : String) : List String :=
  if acc.contains tok then acc else acc ++ [tok]

/-- Preference list as the spec describes it: the catalog-member tokens of
the spec string, in order of first occurrence, duplicates dropped.  Stated
from the spec's words, for comparison with
`get_valid_implementations_and_options`. -/
def specPreferenceList (catalog : List String) (spec : String) : List String :=
  ((tokenize spec).filter (fun t => catalog.contains t)).foldl dedupAppendStep []

/-- Concrete readlink oracle used by the witnesses: the shim binary lives at
`/opt/bin/rubyexec` and the sibling `ruby` symlink points at
`/opt/bin/ruby27`. -/
def rlW : String → Option String := fun p =>
  if p = "/proc/self/exe" then some "/opt/bin/rubyexec"
  else if p = "/opt/bin/ruby" then some "/opt/bin/ruby27"
  else none

/-- Concrete access oracle used by the witnesses: only `/opt/bin/ruby31`
exists. -/
def accW : String → Bool := fun p => p == "/opt/bin/ruby31"

/-! ## Helper lemmas -/

/-- The accumulating tokenizer yields nothing on a string of commas. -/
theorem tokenizeGo_eq_nil : ∀ (l : List Char), (∀ c ∈ l, c = ',') → tokenizeGo [] l = [] := by
  intro l
  induction l with
  | nil => exact fun _ => rfl
  | cons c rest ih =>
    intro h
    have hc : c = ',' := h c (List.mem_cons_self c rest)
    subst hc
    have hstep : tokenizeGo [] (',' :: rest) = tokenizeGo [] rest := by
      simp [tokenizeGo]
    rw [hstep]
    exact ih (fun d hd => h d (List.mem_cons_of_mem _ hd))

/-- Bridge between the boolean `contains` used by `in` and membership. -/
theorem contains_eq_true_iff (l : List String) (x : String) : l.contains x = true ↔ x ∈ l :=
  List.elem_iff

/-- Negative form of the `contains`/membership bridge. -/
theorem contains_eq_false_iff (l : List String) (x : String) :
    l.contains x = false ↔ x ∉ l := by
  constructor
  · intro h hmem
    exact Bool.false_ne_true (h ▸ (contains_eq_true_iff l x).mpr hmem)
  · intro h
    cases hc : l.contains x with
    | false => rfl
    | true => exact absurd ((contains_eq_true_iff l x).mp hc) h

/-- The list component of the parse fold is first-seen deduplication of the
catalog-member tokens, for any catalog not containing the marker token. -/
theorem parse_foldl_fst (catalog : List String)
    (hcat : catalog.contains "--autopick" = false) :
    ∀ (toks : List String) (acc : List String) (b : Bool),
      (toks.foldl (parseStep catalog) (acc, b)).1
        = ((toks.filter fun t => catalog.contains t).foldl dedupAppendStep acc) := by
  intro toks
  induction toks with
  | nil => intro acc b; rfl
  | cons t ts ih =>
    intro acc b
    rw [List.foldl_cons]
    by_cases ht : t = "--autopick"
    · subst ht
      have hstep : parseStep catalog (acc, b) "--autopick" = (acc, true) := by
        simp [parseStep]
      have hcatm : "--autopick" ∉ catalog := (contains_eq_false_iff _ _).mp hcat
      have hfil : ("--autopick" :: ts).filter (fun t => catalog.contains t)
          = ts.filter (fun t => catalog.contains t) := by
        simp [List.filter_cons, hcatm]
      rw [hstep, hfil]
      exact ih acc true
    · cases hct : catalog.contains t with
      | false =>
        have hctm : t ∉ catalog := (contains_eq_false_iff _ _).mp hct
        have hstep : parseStep catalog (acc, b) t = (acc, b) := by
          simp [parseStep, ht, hctm]
        have hfil : (t :: ts).filter (fun t => catalog.contains t)
            = ts.filter (fun t => catalog.contains t) := by
          simp [List.filter_cons, hctm]
        rw [hstep, hfil]
        exact ih acc b
      | true =>
        have hctm : t ∈ catalog := (contains_eq_true_iff _ _).mp hct
        have hstep : parseStep catalog (acc, b) t = (dedupAppendStep acc t, b) := by
          by_cases hac : t ∈ acc
          · have hne : acc ≠ [] := List.ne_nil_of_mem hac
            simp [parseStep, dedupAppendStep, ht, hctm, hac, hne]
          · simp [parseStep, dedupAppendStep, ht, hctm, hac]
        have hfil : (t :: ts).filter (fun t => catalog.contains t)
            = t :: ts.filter (fun t => catalog.contains t) := by
          simp [List.filter_cons, hctm]
        rw [hstep, hfil, List.foldl_cons]
        exact ih (dedupAppendStep acc t) b

/-- The flag component of the parse fold is set exactly when the marker
token occurs (or the flag was already set). -/
theorem parse_foldl_snd (catalog : List String) :
    ∀ (toks : List String) (acc : List String) (b : Bool),
      (toks.foldl (parseStep catalog) (acc, b)).2 = (b || toks.contains "--autopick") := by
  intro toks
  induction toks with
  | nil => intro acc b; simp [List.contains]
  | cons t ts ih =>
    intro acc b
    rw [List.foldl_cons]
    by_cases ht : t = "--autopick"
    · subst ht
      have hstep : parseStep catalog (acc, b) "--autopick" = (acc, true) := by
        simp [parseStep]
      rw [hstep, ih acc true]
      simp [List.contains_cons]
    · have hsnd : (parseStep catalog (acc, b) t).2 = b := by
        simp only [parseStep, if_neg ht]
        split
        · split <;> rfl
        · rfl
      have hpair : parseStep catalog (acc, b) t = ((parseStep catalog (acc, b) t).1, b) := by
        rw [Prod.ext_iff]
        exact ⟨rfl, hsnd⟩
      rw [hpair, ih]
      have ht2 : "--autopick" ≠ t := Ne.symm ht
      simp [List.contains_cons, ht2]

/-- Elements of the deduplicating fold come from the seed or the input. -/
theorem mem_foldl_dedupAppendStep :
    ∀ (l acc : List String) (x : String),
      x ∈ l.foldl dedupAppendStep acc → x ∈ acc ∨ x ∈ l := by
  intro l
  induction l with
  | nil => intro acc x h; exact Or.inl h
  | cons t ts ih =>
    intro acc x h
    rw [List.foldl_cons] at h
    rcases ih (dedupAppendStep acc t) x h with h' | h'
    · by_cases hc : acc.contains t = true
      · rw [dedupAppendStep, if_pos hc] at h'
        exact Or.inl h'
      · rw [dedupAppendStep, if_neg hc] at h'
        rcases List.mem_append.mp h' with h'' | h''
        · exact Or.inl h''
        · rw [List.mem_singleton.mp h'']
          exact Or.inr (List.mem_cons_self t ts)
    · exact Or.inr (List.mem_cons_of_mem _ h')

/-- The deduplicating fold preserves distinctness. -/
theorem nodup_foldl_dedupAppendStep :
    ∀ (l acc : List String), acc.Nodup → (l.foldl dedupAppendStep acc).Nodup := by
  intro l
  induction l with
  | nil => intro acc h; exact h
  | cons t ts ih =>
    intro acc h
    rw [List.foldl_cons]
    apply ih
    by_cases hc : acc.contains t = true
    · rw [dedupAppendStep, if_pos hc]; exact h
    · rw [dedupAppendStep, if_neg hc]
      rw [List.nodup_append]
      refine ⟨h, List.nodup_singleton t, ?_⟩
      rw [List.disjoint_singleton]
      intro hmem
      exact hc ((contains_eq_true_iff acc t).mpr hmem)

/-- `autopick_implementation` is the first-match search over the list. -/
theorem autopick_implementation_eq_find? (accessFn : String → Bool) (dir : String) :
    ∀ l : List String,
      autopick_implementation accessFn dir l
        = (l.find? fun n => accessFn (dir ++ "/" ++ n)).map (fun n => dir ++ "/" ++ n) := by
  intro l
  induction l with
  | nil => rfl
  | cons n rest ih =>
    cases ha : accessFn (dir ++ "/" ++ n) with
    | true => simp [autopick_implementation, List.find?_cons, ha]
    | false => simp [autopick_implementation, List.find?_cons, ha, ih]

/-- Indexed read of the element just past a prefix. -/
theorem getD_append_length : ∀ (pre : List String) (x : String) (l : List String),
    (pre ++ x :: l).getD pre.length "" = x := by
  intro pre
  induction pre with
  | nil => intro x l; rfl
  | cons p ps ih =>
    intro x l
    simpa using ih x l

/-- Reading a suffix through indices recovers the suffix. -/
theorem map_range'_getD : ∀ (t pre : List String),
    (List.range' pre.length t.length).map (fun i => (pre ++ t).getD i "") = t := by
  intro t
  induction t with
  | nil => intro pre; simp
  | cons x t' ih =>
    intro pre
    rw [List.length_cons, List.range'_succ, List.map_cons]
    have h2 := ih (pre ++ [x])
    simp only [List.length_append, List.length_cons, List.length_nil, Nat.zero_add,
      List.append_assoc, List.singleton_append] at h2
    rw [getD_append_length pre x t', h2]

/-! ## Claim theorems -/

/-- C3: for an original argument vector of length at least 2 and any
selected path `p`, the vector handed to `execv` is `p` followed by the
original arguments from index 2 on, in order, with the original `argv[0]`
and the spec argument dropped (the terminating NULL being the end of the
Lean list). -/
theorem exec_argv_reconstruction (argv : List String) (p : String) (h : 2 ≤ argv.length) :
    create_new_argv argv.length (fun i => argv.getD i "") p = p :: argv.drop 2 := by
  cases argv with
  | nil => simp at h
  | cons a l =>
    cases l with
    | nil => simp at h
    | cons b t =>
      unfold create_new_argv
      have hlen : (a :: b :: t).length - 2 = t.length := by simp
      rw [hlen]
      have hmap := map_range'_getD t [a, b]
      simp only [List.length_cons, List.length_nil, Nat.zero_add, List.cons_append,
        List.nil_append] at hmap
      simp only [List.drop_succ_cons, List.drop_zero]
      rw [hmap]

/-- Witness for C3 at the spec's own example `prog spec arg1 arg2`. -/
theorem exec_argv_reconstruction_witness :
    create_new_argv (["prog", "spec", "arg1", "arg2"] : List String).length
        (fun i => (["prog", "spec", "arg1", "arg2"] : List String).getD i "") "/opt/bin/ruby27"
      = ["/opt/bin/ruby27", "arg1", "arg2"] :=
  (exec_argv_reconstruction ["prog", "spec", "arg1", "arg2"] "/opt/bin/ruby27"
    (by decide)).trans (by decide)

/-- C4: the parser produces exactly the catalog-member tokens in order of
first occurrence, duplicates and non-catalog tokens dropped; in particular
a spec `a,a,b` over a catalog containing both names gives `[a, b]`. -/
theorem parse_dedup_filter_spec :
    (∀ spec : String,
        (get_valid_implementations_and_options IMPLEMENTATIONS spec).1
          = specPreferenceList IMPLEMENTATIONS spec)
    ∧ (get_valid_implementations_and_options ["a", "b"] "a,a,b").1 = ["a", "b"] := by
  constructor
  · intro spec
    unfold get_valid_implementations_and_options specPreferenceList
    exact parse_foldl_fst IMPLEMENTATIONS (by decide) (tokenize spec) [] false
  · decide

/-- Witness for C4 on a duplicated catalog token. -/
theorem parse_dedup_filter_spec_witness :
    (get_valid_implementations_and_options IMPLEMENTATIONS "ruby27,ruby27,ruby30").1
      = specPreferenceList IMPLEMENTATIONS "ruby27,ruby27,ruby30" :=
  parse_dedup_filter_spec.1 "ruby27,ruby27,ruby30"

/-- C5: any spec whose tokens include `--autopick` parses with the autopick
flag set and without the marker in the preference list; the spec
`ruby27,--autopick,ruby30` gives flag `true` and list `[ruby27, ruby30]`. -/
theorem parse_autopick_flag_spec :
    (∀ spec : String, "--autopick" ∈ tokenize spec →
        (get_valid_implementations_and_options IMPLEMENTATIONS spec).2 = true
        ∧ "--autopick" ∉ (get_valid_implementations_and_options IMPLEMENTATIONS spec).1)
    ∧ get_valid_implementations_and_options IMPLEMENTATIONS "ruby27,--autopick,ruby30"
        = (["ruby27", "ruby30"], true) := by
  constructor
  · intro spec hmem
    constructor
    · unfold get_valid_implementations_and_options
      rw [parse_foldl_snd, Bool.false_or]
      exact (contains_eq_true_iff _ _).mpr hmem
    · intro hmem'
      unfold get_valid_implementations_and_options at hmem'
      rw [parse_foldl_fst IMPLEMENTATIONS (by decide)] at hmem'
      rcases mem_foldl_dedupAppendStep _ _ _ hmem' with h | h
      · simp at h
      · exact absurd (List.mem_filter.mp h).2 (by decide)
  · decide

/-- Witness for C5 with the marker token leading the spec. -/
theorem parse_autopick_flag_spec_witness :
    (get_valid_implementations_and_options IMPLEMENTATIONS "--autopick,ruby18").2 = true
    ∧ "--autopick" ∉ (get_valid_implementations_and_options IMPLEMENTATIONS "--autopick,ruby18").1 :=
  parse_autopick_flag_spec.1 "--autopick,ruby18" (by decide)

/-- C8: `resolve_path` either dies when `readlink` fails, dies with the
too-long error whenever the target is `MAX_PATH_SIZE` bytes or more, or
returns the target itself, untruncated and strictly shorter than
`MAX_PATH_SIZE`. -/
theorem resolve_path_total_spec (readlinkFn : String → Option String) (p : String) :
    (readlinkFn p = none → resolve_path readlinkFn p = .errResolve)
    ∧ (∀ t, readlinkFn p = some t → MAX_PATH_SIZE ≤ t.length →
        resolve_path readlinkFn p = .errTooLong)
    ∧ (∀ t, resolve_path readlinkFn p = .ok t →
        readlinkFn p = some t ∧ t.length < MAX_PATH_SIZE) := by
  refine ⟨?_, ?_, ?_⟩
  · intro h
    simp [resolve_path, h]
  · intro t h hlen
    have hmin : MAX_PATH_SIZE ≤ min t.length MAX_PATH_SIZE := by
      rw [Nat.min_def]
      split <;> omega
    simp [resolve_path, h, hmin]
  · intro t h
    rcases hrl : readlinkFn p with _ | target
    · rw [resolve_path, hrl] at h
      simp at h
    · have hstep : resolve_path readlinkFn p
          = if MAX_PATH_SIZE ≤ min target.length MAX_PATH_SIZE then ResolveResult.errTooLong
            else ResolveResult.ok
              (String.mk (target.toList.take (min target.length MAX_PATH_SIZE))) := by
        simp only [resolve_path, hrl]
      rw [hstep] at h
      by_cases hlen : MAX_PATH_SIZE ≤ target.length
      · have hmin : MAX_PATH_SIZE ≤ min target.length MAX_PATH_SIZE := by
          rw [Nat.min_def]
          split <;> omega
        rw [if_pos hmin] at h
        exact ResolveResult.noConfusion h
      · push_neg at hlen
        have hmin : min target.length MAX_PATH_SIZE = target.length := by
          rw [Nat.min_def]
          split <;> omega
        rw [hmin, if_neg (by omega : ¬ MAX_PATH_SIZE ≤ target.length)] at h
        have htake : String.mk (target.toList.take target.length) = target := by
          rw [show target.length = target.toList.length from rfl, List.take_length]
          rfl
        rw [htake] at h
        cases h
        exact ⟨rfl, hlen⟩

/-- Witness for C8: a failing readlink dies. -/
theorem resolve_path_total_spec_witness :
    resolve_path (fun _ => none) "/proc/self/exe" = ResolveResult.errResolve :=
  (resolve_path_total_spec (fun _ => none) "/proc/self/exe").1 rfl

/-- C9: at every point during parsing (any prefix of the token stream), the
accumulated list holds only catalog members, is duplicate-free, and so has
at most 16 entries — 17 slots counting the NULL terminator, the storage of
one copy of the catalog array. -/
theorem parse_accumulator_invariant (spec : String) (pre suf : List String)
    (hsplit : tokenize spec = pre ++ suf) :
    ((pre.foldl (parseStep IMPLEMENTATIONS) ([], false)).1.all
        fun x => IMPLEMENTATIONS.contains x) = true
    ∧ (pre.foldl (parseStep IMPLEMENTATIONS) ([], false)).1.Nodup
    ∧ (pre.foldl (parseStep IMPLEMENTATIONS) ([], false)).1.length ≤ 16
    ∧ (pre.foldl (parseStep IMPLEMENTATIONS) ([], false)).1.length + 1 ≤ 17 := by
  have hfst := parse_foldl_fst IMPLEMENTATIONS (by decide) pre [] false
  have hmem : ∀ x ∈ (pre.foldl (parseStep IMPLEMENTATIONS) ([], false)).1,
      IMPLEMENTATIONS.contains x = true := by
    intro x hx
    rw [hfst] at hx
    rcases mem_foldl_dedupAppendStep _ _ _ hx with h | h
    · simp at h
    · exact (List.mem_filter.mp h).2
  have hnodup : (pre.foldl (parseStep IMPLEMENTATIONS) ([], false)).1.Nodup := by
    rw [hfst]
    exact nodup_foldl_dedupAppendStep _ _ List.nodup_nil
  have hsub : (pre.foldl (parseStep IMPLEMENTATIONS) ([], false)).1 ⊆ IMPLEMENTATIONS :=
    fun x hx => (contains_eq_true_iff _ _).mp (hmem x hx)
  have hlen : (pre.foldl (parseStep IMPLEMENTATIONS) ([], false)).1.length ≤ 16 := by
    have h16 : IMPLEMENTATIONS.length = 16 := by decide
    have := (hnodup.subperm hsub).length_le
    omega
  exact ⟨List.all_eq_true.mpr hmem, hnodup, hlen, by omega⟩

/-- Witness for C9 after consuming two tokens of a four-token spec. -/
theorem parse_accumulator_invariant_witness :
    (((["ruby27", "foo"] : List String).foldl (parseStep IMPLEMENTATIONS) ([], false)).1.all
        fun x => IMPLEMENTATIONS.contains x) = true
    ∧ ((["ruby27", "foo"] : List String).foldl (parseStep IMPLEMENTATIONS) ([], false)).1.Nodup
    ∧ ((["ruby27", "foo"] : List String).foldl
        (parseStep IMPLEMENTATIONS) ([], false)).1.length ≤ 16
    ∧ ((["ruby27", "foo"] : List String).foldl
        (parseStep IMPLEMENTATIONS) ([], false)).1.length + 1 ≤ 17 :=
  parse_accumulator_invariant "ruby27,foo,ruby27,--autopick" ["ruby27", "foo"]
    ["ruby27", "--autopick"] (by decide)

/-- C6: a spec whose tokens contain no catalog member makes the program die
with `No valid implementations found.` at status 1, for every filesystem,
and exec is never reached. -/
theorem main_no_valid_implementations (readlinkFn : String → Option String)
    (accessFn : String → Bool) (a0 argv1 : String) (rest : List String)
    (h1 : argv1 ≠ "-h") (h2 : argv1 ≠ "--help")
    (htoks : ∀ t ∈ tokenize argv1, IMPLEMENTATIONS.contains t = false) :
    mainModel readlinkFn accessFn (a0 :: argv1 :: rest)
      = .fatal "No valid implementations found.\n"
    ∧ exitCode (mainModel readlinkFn accessFn (a0 :: argv1 :: rest)) = some 1
    ∧ ∀ path args, mainModel readlinkFn accessFn (a0 :: argv1 :: rest) ≠ .exec path args := by
  have hempty : (get_valid_implementations_and_options IMPLEMENTATIONS argv1).1 = [] := by
    unfold get_valid_implementations_and_options
    rw [parse_foldl_fst IMPLEMENTATIONS (by decide)]
    have hfil : (tokenize argv1).filter (fun t => IMPLEMENTATIONS.contains t) = [] := by
      rw [List.filter_eq_nil_iff]
      intro a ha hcontra
      have hc : IMPLEMENTATIONS.contains a = true := hcontra
      rw [htoks a ha] at hc
      exact Bool.false_ne_true hc
    rw [hfil, List.foldl_nil]
  have hmain : mainModel readlinkFn accessFn (a0 :: argv1 :: rest)
      = .fatal "No valid implementations found.\n" := by
    simp [mainModel, h1, h2, hempty]
  refine ⟨hmain, by rw [hmain]; rfl, ?_⟩
  intro path args
  rw [hmain]
  simp

/-- Witness for C6 with the spec `foo,bar`. -/
theorem main_no_valid_implementations_witness :
    mainModel rlW accW ["rubyexec", "foo,bar", "s.rb"]
      = Outcome.fatal "No valid implementations found.\n"
    ∧ exitCode (mainModel rlW accW ["rubyexec", "foo,bar", "s.rb"]) = some 1 :=
  ⟨(main_no_valid_implementations rlW accW "rubyexec" "foo,bar" ["s.rb"]
      (by decide) (by decide) (by decide)).1,
   (main_no_valid_implementations rlW accW "rubyexec" "foo,bar" ["s.rb"]
      (by decide) (by decide) (by decide)).2.1⟩

/-- C1: when the resolved default name is in the preference set the
selector takes the resolved default target itself — directly when
absolute, otherwise re-anchored under the resolver's directory — for every
access oracle and even with the autopick flag set, so no existence check
influences the result. -/
theorem main_selects_default_when_in_set (readlinkFn : String → Option String)
    (accessFn : String → Bool) (a0 argv1 : String) (rest : List String)
    (impls : List String) (auto : Bool) (rubyexec resolved_ruby : String)
    (h1 : argv1 ≠ "-h") (h2 : argv1 ≠ "--help")
    (hparse : get_valid_implementations_and_options IMPLEMENTATIONS argv1 = (impls, auto))
    (hrx : resolve_path readlinkFn "/proc/self/exe" = .ok rubyexec)
    (hrr : resolve_path readlinkFn (dirname rubyexec ++ "/ruby") = .ok resolved_ruby)
    (hin : impls.contains (basename resolved_ruby) = true) :
    mainModel readlinkFn accessFn (a0 :: argv1 :: rest)
      = .exec (selectedPath (dirname rubyexec) resolved_ruby)
          (create_new_argv (a0 :: argv1 :: rest).length
            (fun i => (a0 :: argv1 :: rest).getD i "")
            (selectedPath (dirname rubyexec) resolved_ruby)) := by
  have hinm : basename resolved_ruby ∈ impls := (contains_eq_true_iff _ _).mp hin
  have hne : impls ≠ [] := List.ne_nil_of_mem hinm
  simp [mainModel, runResolved, runSelector, h1, h2, hparse, hne, hrx, hrr, hinm]

/-- Witness for C1: autopick is set, only `ruby31` exists on disk, yet the
default `ruby27` is chosen. -/
theorem main_selects_default_when_in_set_witness :
    mainModel rlW accW ["rubyexec", "ruby27,--autopick", "script.rb"]
      = Outcome.exec "/opt/bin/ruby27" ["/opt/bin/ruby27", "script.rb"] :=
  (main_selects_default_when_in_set rlW accW "rubyexec" "ruby27,--autopick" ["script.rb"]
      ["ruby27"] true "/opt/bin/rubyexec" "/opt/bin/ruby27"
      (by decide) (by decide) (by decide) (by decide) (by decide) (by decide)).trans
    (by decide)

/-- C2: with autopick set and the default name not in the set, the result
is the first entry of the list, in parsed order, whose `dir/name` exists
for the access oracle, and the fatal `No usable implementations found.`
exit at status 1 when none exists. -/
theorem main_autopick_scan (readlinkFn : String → Option String) (accessFn : String → Bool)
    (a0 argv1 : String) (rest : List String)
    (impls : List String) (rubyexec resolved_ruby : String)
    (h1 : argv1 ≠ "-h") (h2 : argv1 ≠ "--help")
    (hparse : get_valid_implementations_and_options IMPLEMENTATIONS argv1 = (impls, true))
    (hne : impls ≠ [])
    (hrx : resolve_path readlinkFn "/proc/self/exe" = .ok rubyexec)
    (hrr : resolve_path readlinkFn (dirname rubyexec ++ "/ruby") = .ok resolved_ruby)
    (hnotin : impls.contains (basename resolved_ruby) = false) :
    mainModel readlinkFn accessFn (a0 :: argv1 :: rest)
      = (match impls.find? (fun n => accessFn (dirname rubyexec ++ "/" ++ n)) with
         | some n =>
           Outcome.exec (dirname rubyexec ++ "/" ++ n)
             (create_new_argv (a0 :: argv1 :: rest).length
               (fun i => (a0 :: argv1 :: rest).getD i "") (dirname rubyexec ++ "/" ++ n))
         | none => Outcome.fatal "No usable implementations found.\n")
    ∧ (impls.find? (fun n => accessFn (dirname rubyexec ++ "/" ++ n)) = none →
        exitCode (mainModel readlinkFn accessFn (a0 :: argv1 :: rest)) = some 1) := by
  have hmain : mainModel readlinkFn accessFn (a0 :: argv1 :: rest)
      = (match impls.find? (fun n => accessFn (dirname rubyexec ++ "/" ++ n)) with
         | some n =>
           Outcome.exec (dirname rubyexec ++ "/" ++ n)
             (create_new_argv (a0 :: argv1 :: rest).length
               (fun i => (a0 :: argv1 :: rest).getD i "") (dirname rubyexec ++ "/" ++ n))
         | none => Outcome.fatal "No usable implementations found.\n") := by
    have hnotinm : basename resolved_ruby ∉ impls := (contains_eq_false_iff _ _).mp hnotin
    rcases hf : impls.find? (fun n => accessFn (dirname rubyexec ++ "/" ++ n)) with _ | n
    · simp [mainModel, runResolved, runSelector, h1, h2, hparse, hne, hrx, hrr, hnotinm,
        autopick_implementation_eq_find?, hf]
    · simp [mainModel, runResolved, runSelector, h1, h2, hparse, hne, hrx, hrr, hnotinm,
        autopick_implementation_eq_find?, hf]
  refine ⟨hmain, fun hf0 => ?_⟩
  rw [hmain, hf0]
  simp [exitCode]

/-- Witness for C2: of `ruby30,ruby31` only `ruby31` exists, so `ruby31` is
picked. -/
theorem main_autopick_scan_witness :
    mainModel rlW accW ["rubyexec", "ruby30,--autopick,ruby31", "s.rb"]
      = Outcome.exec "/opt/bin/ruby31" ["/opt/bin/ruby31", "s.rb"] :=
  ((main_autopick_scan rlW accW "rubyexec" "ruby30,--autopick,ruby31" ["s.rb"]
      ["ruby30", "ruby31"] "/opt/bin/rubyexec" "/opt/bin/ruby27"
      (by decide) (by decide) (by decide) (by decide) (by decide) (by decide)
      (by decide)).1).trans (by decide)

/-- C7: default name absent and autopick unset is the fatal unsupported
exit at status 1, for every access oracle — no candidate existence on disk
can change it. -/
theorem main_unsupported_selection (readlinkFn : String → Option String)
    (accessFn : String → Bool) (a0 argv1 : String) (rest : List String)
    (impls : List String) (rubyexec resolved_ruby : String)
    (h1 : argv1 ≠ "-h") (h2 : argv1 ≠ "--help")
    (hparse : get_valid_implementations_and_options IMPLEMENTATIONS argv1 = (impls, false))
    (hne : impls ≠ [])
    (hrx : resolve_path readlinkFn "/proc/self/exe" = .ok rubyexec)
    (hrr : resolve_path readlinkFn (dirname rubyexec ++ "/ruby") = .ok resolved_ruby)
    (hnotin : impls.contains (basename resolved_ruby) = false) :
    mainModel readlinkFn accessFn (a0 :: argv1 :: rest)
      = .fatal "Script does not support currently selected Ruby implementation.\n"
    ∧ exitCode (mainModel readlinkFn accessFn (a0 :: argv1 :: rest)) = some 1 := by
  have hnotinm : basename resolved_ruby ∉ impls := (contains_eq_false_iff _ _).mp hnotin
  have hmain : mainModel readlinkFn accessFn (a0 :: argv1 :: rest)
      = .fatal "Script does not support currently selected Ruby implementation.\n" := by
    simp [mainModel, runResolved, runSelector, h1, h2, hparse, hne, hrx, hrr, hnotinm]
  exact ⟨hmain, by rw [hmain]; rfl⟩

/-- Witness for C7: `ruby31` exists on disk according to the oracle, but
without autopick the program still dies. -/
theorem main_unsupported_selection_witness :
    mainModel rlW accW ["rubyexec", "ruby30,ruby31", "s.rb"]
      = Outcome.fatal "Script does not support currently selected Ruby implementation.\n"
    ∧ exitCode (mainModel rlW accW ["rubyexec", "ruby30,ruby31", "s.rb"]) = some 1 :=
  main_unsupported_selection rlW accW "rubyexec" "ruby30,ruby31" ["s.rb"]
    ["ruby30", "ruby31"] "/opt/bin/rubyexec" "/opt/bin/ruby27"
    (by decide) (by decide) (by decide) (by decide) (by decide) (by decide) (by decide)

/-- C10: a present spec argument that yields no tokens (empty or only
commas) dies with `No valid implementations found.` at status 1 — not the
usage status 2 — for every filesystem oracle, so nothing is resolved or
checked before exiting. -/
theorem main_empty_token_spec (readlinkFn : String → Option String) (accessFn : String → Bool)
    (a0 : String) (rest : List String) (argv1 : String)
    (hcomma : ∀ c ∈ argv1.toList, c = ',') :
    mainModel readlinkFn accessFn (a0 :: argv1 :: rest)
      = .fatal "No valid implementations found.\n"
    ∧ exitCode (mainModel readlinkFn accessFn (a0 :: argv1 :: rest)) = some 1
    ∧ mainModel readlinkFn accessFn (a0 :: argv1 :: rest) ≠ .usage := by
  have h1 : argv1 ≠ "-h" := by
    intro heq
    subst heq
    exact absurd (hcomma '-' (by decide)) (by decide)
  have h2 : argv1 ≠ "--help" := by
    intro heq
    subst heq
    exact absurd (hcomma '-' (by decide)) (by decide)
  have htok : tokenize argv1 = [] := tokenizeGo_eq_nil argv1.toList hcomma
  have hempty : (get_valid_implementations_and_options IMPLEMENTATIONS argv1).1 = [] := by
    unfold get_valid_implementations_and_options
    rw [htok]
    rfl
  have hmain : mainModel readlinkFn accessFn (a0 :: argv1 :: rest)
      = .fatal "No valid implementations found.\n" := by
    simp [mainModel, h1, h2, hempty]
  refine ⟨hmain, by rw [hmain]; rfl, by rw [hmain]; simp⟩

/-- Witness for C10 with the all-comma spec argument. -/
theorem main_empty_token_spec_witness :
    mainModel rlW accW ["rubyexec", ",,,"]
      = Outcome.fatal "No valid implementations found.\n"
    ∧ exitCode (mainModel rlW accW ["rubyexec", ",,,"]) = some 1
    ∧ mainModel rlW accW ["rubyexec", ",,,"] ≠ Outcome.usage :=
  main_empty_token_spec rlW accW "rubyexec" [] ",,," (by decide)

end Rubyexec
